import Mathlib

/-!
Verification development for the power-series evaluation engine of the
astro-float arbitrary-precision library: the reduction-cost optimizer
(`series_cost_optimize`), the series dispatcher (`series_run`), the cosine
coefficient generator, and the cosine/tangent argument reduction and
restoration routines.

Machine integers (`usize`/`u64`) are modelled as `Nat` with explicit
wrap-around (`% 2^64`) at every Rust operation that can overflow; `isize`
values are modelled as `Int` with explicit two's-complement wrapping.
Fallible allocation and rounding are outside the properties treated here:
arithmetic on big-float values is modelled exactly over `ℚ` (or `ℝ` for
trigonometric identities), which is what the specification's phrase
"up to the working precision's rounding error" idealizes.
-/

/-- Word width of the machine model: `usize`/`u64` hold values below `2^64`. -/
def W64 : ℕ := 2 ^ 64

/-- Largest `u64` value, the initial best-cost sentinel in the optimizer. -/
def u64MAX : ℕ := 2 ^ 64 - 1

/-- Wrapping interpretation of a Rust `u64`/`usize` arithmetic result. -/
def wrap64 (x : ℕ) : ℕ := x % W64

/-- Rust wrapping addition on `usize`. -/
def add64 (a b : ℕ) : ℕ := (a + b) % W64

/-- Rust wrapping subtraction on `usize` (two's complement). -/
def sub64 (a b : ℕ) : ℕ := (a + (W64 - b % W64)) % W64

/-- Rust `as usize` cast of an `isize` value (two's-complement bit reinterpretation). -/
def usizeOfInt (z : ℤ) : ℕ := (z % (W64 : ℤ)).toNat

/-- Rust wrapping normalization of an `isize` intermediate into `[-2^63, 2^63)`. -/
def iwrap64 (z : ℤ) : ℤ := (z + 2 ^ 63) % (W64 : ℤ) - 2 ^ 63

/-- Modelled from the spec: the machine word size in bits ("precision in machine
words", `WORD_BIT_SIZE`); the word is 64 bits wide. -/
def WORD_BIT_SIZE : ℕ := 64

/-- Halving loop computing the floor of the base-2 logarithm; the first
argument is fuel, which `log2_floor` instantiates so that it never runs out. -/
def log2_floor_aux : ℕ → ℕ → ℕ
  | 0, _ => 0
  | fuel + 1, n => if n ≤ 1 then 0 else log2_floor_aux fuel (n / 2) + 1

/-- Modelled from the spec: `log2_floor` from the missing `common/util` module,
the floor of the base-2 logarithm used by the cost model (`⌊log2(p)⌋`). -/
def log2_floor (n : ℕ) : ℕ := log2_floor_aux n n

/-- Modelled from the spec: `sqrt_int` from the missing `common/util` module,
the integer square root `⌈√n⌉` used for the rectangular cache size. -/
def sqrt_int (n : ℕ) : ℕ :=
  if Nat.sqrt n * Nat.sqrt n = n then Nat.sqrt n else Nat.sqrt n + 1

/-- Modelled from the spec: `calc_mul_cost` from the missing `common/util`
module; a monotone non-decreasing function of the precision approximating the
relative machine cost of one multiplication at that precision. -/
def calc_mul_cost (p : ℕ) : ℕ := p

/-- Modelled from the spec: `calc_add_cost` from the missing `common/util`
module; a monotone non-decreasing function of the precision approximating the
relative machine cost of one addition at that precision. -/
def calc_add_cost (p : ℕ) : ℕ := p

/-- Modelled from the spec: `round_p` from the missing `common/util` module;
"precision is rounded upwards to the word size". -/
def round_p (p : ℕ) : ℕ := (p + WORD_BIT_SIZE - 1) / WORD_BIT_SIZE * WORD_BIT_SIZE

/-- `const MAX_CACHE: usize = 128;` from `ops/series.rs`. -/
def MAX_CACHE : ℕ := 128

/-- `const RECT_ITER_THRESHOLD: usize = MAX_CACHE / 10 * 9;` from
`ops/series.rs` (integer division evaluates left to right). -/
def RECT_ITER_THRESHOLD : ℕ := MAX_CACHE / 10 * 9

/-- `series_niter` from `ops/series.rs`: the estimate
`p / (log2_floor p - log2_floor (log2_floor p) + m - 2)` with `usize`
wrap-around on each arithmetic step. -/
def series_niter (p m : ℕ) : ℕ :=
  let ln := log2_floor p
  let lln := log2_floor ln
  p / sub64 (add64 (sub64 ln lln) m) 2

/-- `series_cost` from `ops/series.rs`: estimated cost of running `niter`
series iterations at precision `p` with a generator of per-iteration cost
`iter_cost`, with the extra rectangular-method terms above the threshold. -/
def series_cost (niter p iter_cost : ℕ) : ℕ :=
  let cost_mul := calc_mul_cost p
  let cost_add := calc_add_cost p
  let cost := wrap64 (niter * wrap64 (cost_mul + cost_add + iter_cost))
  if RECT_ITER_THRESHOLD ≤ niter then
    add64 (add64 cost (wrap64 (sqrt_int (niter % 2 ^ 32) * cost_mul)))
      (wrap64 (niter / 10 * wrap64 (wrap64 (cost_mul * 2) + cost_add + iter_cost)))
  else
    cost

/-- The data `series_cost_optimize` consumes from its two type parameters: the
generator's `iter_cost` and the estimator's `reduction_cost` and
`reduction_effect` functions. -/
structure SCOParams where
  iter_cost : ℕ
  reduction_cost : ℕ → ℕ → ℕ
  reduction_effect : ℕ → ℤ → ℕ

/-- `let reduction_num_step = log2_floor(p) / 2;` from `series_cost_optimize`. -/
def reduction_num_step (p : ℕ) : ℕ := log2_floor p / 2

/-- The initial `reduction_times` of `series_cost_optimize`:
`reduction_num_step - m` clamped to be non-negative. -/
def sco_start (p : ℕ) (m : ℤ) : ℕ :=
  if (reduction_num_step p : ℤ) > m then usizeOfInt ((reduction_num_step p : ℤ) - m) else 0

/-- The effective negative exponent `m_eff` computed by one probe of the
optimizer loop at reduction count `t`. -/
def sco_m_eff (P : SCOParams) (m : ℤ) (t : ℕ) : ℕ := P.reduction_effect t m

/-- The iteration estimate `niter` computed by one probe of the optimizer loop
at reduction count `t`. -/
def sco_niter (P : SCOParams) (p : ℕ) (m : ℤ) (pwr_step t : ℕ) : ℕ :=
  series_niter p (sco_m_eff P m t) / pwr_step

/-- The total cost `cost2` computed by one probe of the optimizer loop at
reduction count `t`: series cost (raw per-iteration cost if `ext`) plus
reduction cost, in wrapping `u64` arithmetic. -/
def sco_cost (P : SCOParams) (p : ℕ) (m : ℤ) (pwr_step : ℕ) (ext : Bool) (t : ℕ) : ℕ :=
  let niter := sco_niter P p m pwr_step t
  add64 (if ext then wrap64 (P.iter_cost * niter) else series_cost niter p P.iter_cost)
    (P.reduction_cost t p)

/-- The `loop` of `series_cost_optimize`, made total by a fuel argument:
state is the current `reduction_times` and the best cost `cost1`; an
accepted probe strictly lowers `cost1` and advances by `reduction_num_step`;
a rejected probe returns the rolled-back count together with the `niter`
and `m_eff` computed at the rejected count. -/
def scoLoop (P : SCOParams) (p : ℕ) (m : ℤ) (pwr_step : ℕ) (ext : Bool) :
    ℕ → ℕ → ℕ → Option (ℕ × ℕ × ℕ)
  | 0, _, _ => none
  | fuel + 1, t, cost1 =>
    if sco_cost P p m pwr_step ext t < cost1 then
      scoLoop P p m pwr_step ext fuel (add64 t (reduction_num_step p))
        (sco_cost P p m pwr_step ext t)
    else
      some (sub64 t (reduction_num_step p), sco_niter P p m pwr_step t, sco_m_eff P m t)

/-- `series_cost_optimize` from `ops/series.rs`: run the probe loop from the
clamped start with best cost `u64::MAX`.  The fuel `2^64 + 1` exceeds the
longest possible chain of strictly decreasing `u64` costs, so it never runs
out (proved below). -/
def series_cost_optimize (P : SCOParams) (p : ℕ) (m : ℤ) (pwr_step : ℕ) (ext : Bool) :
    Option (ℕ × ℕ × ℕ) :=
  scoLoop P p m pwr_step ext (2 ^ 64 + 1) (sco_start p m) u64MAX

/-- The probe lattice of the optimizer: the reduction count examined by the
`j`-th probe, `start + j * step` in wrapping arithmetic. -/
def sco_probe_t (p : ℕ) (m : ℤ) (j : ℕ) : ℕ :=
  (sco_start p m + j * reduction_num_step p) % W64

/-- The four summation strategies of `series_run`. -/
inductive SeriesStrategy where
  | fast
  | rect
  | linear
  | horner
deriving DecidableEq

/-- The dispatch decision of `series_run` from `ops/series.rs`, as a function
of the zero-ness of the first power and the step factor, the iteration
estimate, and whether the generator is divisor-based. -/
def series_run_dispatch (x_first_zero x_step_zero : Bool) (niter : ℕ) (is_div : Bool) :
    SeriesStrategy :=
  if x_first_zero || x_step_zero then SeriesStrategy.fast
  else if RECT_ITER_THRESHOLD ≤ niter then SeriesStrategy.rect
  else if is_div then SeriesStrategy.linear
  else SeriesStrategy.horner

/-- `series_compute_fast` from `ops/series.rs` in exact arithmetic: the result
value together with the number of coefficients pulled from the generator
(`coeff` is the single coefficient the generator would yield). -/
def series_compute_fast (acc x_first : ℚ) (is_div : Bool) (coeff : ℚ) : ℚ × ℕ :=
  if x_first = 0 then (acc, 0)
  else (acc + (if is_div then x_first / coeff else x_first * coeff), 1)

/-- `let cache_sz = MAX_CACHE.min(sqrt_iter);` of `series_rectangular`, where
`sqrt_iter = sqrt_int(niter as u32)` (the `u32` cast wraps). -/
def rect_cache_sz (niter : ℕ) : ℕ := min MAX_CACHE (sqrt_int (niter % 2 ^ 32))

/-- Outcome of running the subtraction loop of `series_rectangular`:
`wrapped` marks an unsigned subtraction `niter -= cache_sz` that would
wrap below zero. -/
inductive RectRun where
  | ok (rem : ℕ)
  | wrapped
  | fuelOut
deriving DecidableEq

/-- The `loop` of `series_rectangular`: each iteration performs
`niter -= cache_sz` (checked here for wrap-around) and exits once
`niter < cache_sz`. -/
def rectLoopAux (c : ℕ) : ℕ → ℕ → RectRun
  | 0, _ => RectRun.fuelOut
  | fuel + 1, n =>
    if n < c then RectRun.wrapped
    else if n - c < c then RectRun.ok (n - c)
    else rectLoopAux c fuel (n - c)

/-- The two unsigned-subtraction sites of `series_rectangular`: the pre-loop
`niter -= cache_sz` followed by the subtraction loop. -/
def rect_subtractions (niter fuel : ℕ) : RectRun :=
  if niter < rect_cache_sz niter then RectRun.wrapped
  else rectLoopAux (rect_cache_sz niter) fuel (niter - rect_cache_sz niter)

/-- `TanPolycoeffGen::new` from `ops/tan.rs`: the per-iteration cost
`9 * calc_mul_cost(p) + 2 * (calc_add_cost(p) + calc_add_cost(WORD_BIT_SIZE))`. -/
def tan_iter_cost (p : ℕ) : ℕ :=
  9 * calc_mul_cost p + 2 * (calc_add_cost p + calc_add_cost WORD_BIT_SIZE)

/-- `TanArgReductionEstimator::reduction_cost` from `ops/tan.rs`:
`n as u64 * (2 * cost_mul + cost_add) as u64` in wrapping arithmetic. -/
def tanReductionCost (n p : ℕ) : ℕ :=
  wrap64 (n * wrap64 (2 * calc_mul_cost p + calc_add_cost p))

/-- `TanArgReductionEstimator::reduction_effect` from `ops/tan.rs`:
`(n as isize + m) as usize`. -/
def tanReductionEffect (n : ℕ) (m : ℤ) : ℕ :=
  usizeOfInt (iwrap64 (iwrap64 (n : ℤ) + m))

/-- The optimizer parameters induced by `TanPolycoeffGen` and
`TanArgReductionEstimator` at precision `p`. -/
def tanSCOParams (p : ℕ) : SCOParams :=
  ⟨tan_iter_cost p, tanReductionCost, tanReductionEffect⟩

/-- `CosPolycoeffGen::new` iteration cost from `ops/cos.rs`:
`(get_mul_cost(p) + get_add_cost(p)) << 1`. -/
def cos_iter_cost (p : ℕ) : ℕ := wrap64 ((calc_mul_cost p + calc_add_cost p) * 2)

/-- `CosArgReductionEstimator::get_reduction_cost` from `ops/cos.rs`:
`(n * ((cost_mul << 1) + cost_add)) << 1` in wrapping arithmetic. -/
def cosReductionCost (n p : ℕ) : ℕ :=
  wrap64 (wrap64 (n * wrap64 (wrap64 (calc_mul_cost p * 2) + calc_add_cost p)) * 2)

/-- `CosArgReductionEstimator::reduction_effect` from `ops/cos.rs`:
`((n as isize) * 1000 / 631 + m) as usize` (`isize` division truncates
toward zero). -/
def cosReductionEffect (n : ℕ) (m : ℤ) : ℕ :=
  usizeOfInt (iwrap64 (Int.tdiv (iwrap64 (iwrap64 (n : ℤ) * 1000)) 631 + m))

/-- The optimizer parameters induced by `CosPolycoeffGen` and
`CosArgReductionEstimator` at precision `p`. -/
def cosSCOParams (p : ℕ) : SCOParams :=
  ⟨cos_iter_cost p, cosReductionCost, cosReductionEffect⟩

/-- State of `CosPolycoeffGen` from `ops/cos.rs`: the increment counter `inc`
(a big-float starting from zero, modelled by its integer value), the running
factorial-reciprocal product `fct`, and the sign alternator. -/
structure CosPolycoeffGen where
  inc : ℕ
  fct : ℚ
  sign : ℤ

/-- `CosPolycoeffGen::new`: `inc = 0`, `fct = 1`, `sign = 1`. -/
def cosGenNew : CosPolycoeffGen := ⟨0, 1, 1⟩

/-- `CosPolycoeffGen::next` in exact arithmetic: increment `inc` and fold
`1/inc` into `fct` twice, flip the sign, and force the sign of `fct` to the
alternator's sign; returns the coefficient together with the new state. -/
def cosGenNext (g : CosPolycoeffGen) : ℚ × CosPolycoeffGen :=
  let i1 : ℕ := g.inc + 1
  let f1 : ℚ := g.fct * (1 / (i1 : ℚ))
  let i2 : ℕ := i1 + 1
  let f2 : ℚ := f1 * (1 / (i2 : ℚ))
  let s : ℤ := -g.sign
  let f3 : ℚ := if 0 < s then |f2| else -|f2|
  (f3, ⟨i2, f3, s⟩)

/-- The generator state after `k` pulls. -/
def cosGenState (k : ℕ) : CosPolycoeffGen :=
  (fun g => (cosGenNext g).2)^[k] cosGenNew

/-- The coefficient returned by the `k`-th pull (`k = 1, 2, ...`), which is the
`fct` field of the state after `k` pulls. -/
def cosPullCoeff (k : ℕ) : ℚ := (cosGenState k).fct

/-- `PolycoeffGen::is_div` for `CosPolycoeffGen`: the trait default `false`
(`ops/series.rs`), not overridden in `ops/cos.rs`. -/
def cosGenIsDiv : Bool := false

/-- `cos_arg_reduce` from `ops/cos.rs` over an exact field: divide by 3,
`n` times. -/
def cos_arg_reduce {K : Type} [Field K] (n : ℕ) (x : K) : K :=
  (fun v => v / 3)^[n] x

/-- One iteration of `cos_arg_restore` from `ops/cos.rs`:
`cos = cos*cos*cos * 4 - cos * 3` (the triple-angle identity). -/
def cosRestoreStep {K : Type} [Field K] (c : K) : K := c * c * c * 4 - c * 3

/-- `cos_arg_restore` from `ops/cos.rs` over an exact field: apply the
triple-angle step `n` times. -/
def cos_arg_restore {K : Type} [Field K] (n : ℕ) (c : K) : K :=
  cosRestoreStep^[n] c

/-- One iteration of `tan_arg_restore` from `ops/tan.rs`: double the value
(exponent increment) and divide by `1 - val*val` (the double-angle identity). -/
def tanRestoreStep {K : Type} [Field K] (v : K) : K := (v + v) / (1 - v * v)

/-- `tan_arg_restore` from `ops/tan.rs` over an exact field: apply the
double-angle step `n` times. -/
def tan_arg_restore {K : Type} [Field K] (n : ℕ) (v : K) : K :=
  tanRestoreStep^[n] v

/-- `tan_arg_reduce` from `ops/tan.rs` at the level of exact values: the input
is `f * 2^e` (fraction and exponent), `emin` is `EXPONENT_MIN`.  In the guarded
branch the code first sets the exponent to `emin` (rescaling the value) and
only then reads it back to compute the number of explicit halvings, so the
count is `n - (emin - emin).toNat`.  Each halving is exact here. -/
def tan_arg_reduce_val (f : ℚ) (e : ℤ) (n : ℕ) (emin : ℤ) : ℚ :=
  if e < emin + n then
    let cnt : ℕ := n - (emin - emin).toNat
    f * (2 : ℚ) ^ emin / 2 ^ cnt
  else
    f * (2 : ℚ) ^ (e - n)

/-- The exact value denoted by a fraction-exponent pair. -/
def bfVal (f : ℚ) (e : ℤ) : ℚ := f * (2 : ℚ) ^ e

/-- The zero-input short-circuit data of `BigFloatNumber::tan` from
`ops/tan.rs`: sign and inexact flag of the input. -/
structure TanInput where
  is_zero : Bool
  sign : ℤ
  inexact : Bool

/-- Result of the entry dispatch of `tan`: either the early signed zero built
by `Self::new2(p, self.sign(), self.inexact())`, or entry into the
reduce/evaluate/restore retry loop. -/
inductive TanEntryOut where
  | earlyZero (p : ℕ) (sgn : ℤ) (inexact : Bool)
  | enterLoop
deriving DecidableEq

/-- The entry dispatch of `BigFloatNumber::tan`: round the precision up to the
word size, then short-circuit exact zeros before the retry loop. -/
def tan_entry (x : TanInput) (p : ℕ) : TanEntryOut :=
  let p2 := round_p p
  if x.is_zero then TanEntryOut.earlyZero p2 x.sign x.inexact else TanEntryOut.enterLoop

/-- The numeric value carried by an entry-dispatch result (`new2` builds a
zero; a loop entry carries no early value). -/
def tanEntryValue : TanEntryOut → Option ℚ
  | TanEntryOut.earlyZero _ _ _ => some 0
  | TanEntryOut.enterLoop => none

/-- One verification-failure step of the adaptive loop of
`BigFloatNumber::tan`: `p_wrk += p_inc; p_inc = round_p(p_wrk / 5)`. -/
def tanRetryStep (s : ℕ × ℕ) : ℕ × ℕ :=
  let w := s.1 + s.2
  (w, round_p (w / 5))

/-- The working precision and increment after `k` verification failures in
`BigFloatNumber::tan`, starting from `p_wrk = p0 + WORD_BIT_SIZE` and
`p_inc = WORD_BIT_SIZE` (`p0` is `p.max(self.mantissa_max_bit_len())`). -/
def tanRetryState (p0 k : ℕ) : ℕ × ℕ :=
  tanRetryStep^[k] (p0 + WORD_BIT_SIZE, WORD_BIT_SIZE)

/-! ### Helper lemmas about the optimizer loop -/

theorem scoLoop_mono (P : SCOParams) (p : ℕ) (m : ℤ) (s : ℕ) (ext : Bool) :
    ∀ (f1 : ℕ) {f2 t c r}, scoLoop P p m s ext f1 t c = some r → f1 ≤ f2 →
      scoLoop P p m s ext f2 t c = some r := by
  intro f1
  induction f1 with
  | zero =>
    intro f2 t c r h _
    simp [scoLoop] at h
  | succ f ih =>
    intro f2 t c r h hle
    cases f2 with
    | zero => omega
    | succ f2 =>
      rw [scoLoop] at h ⊢
      by_cases hc : sco_cost P p m s ext t < c
      · rw [if_pos hc] at h ⊢
        exact ih h (by omega)
      · rw [if_neg hc] at h ⊢
        exact h

theorem scoLoop_isSome (P : SCOParams) (p : ℕ) (m : ℤ) (s : ℕ) (ext : Bool) :
    ∀ (fuel : ℕ) (t c : ℕ), c < fuel → (scoLoop P p m s ext fuel t c).isSome := by
  intro fuel
  induction fuel with
  | zero => intro t c h; omega
  | succ f ih =>
    intro t c h
    rw [scoLoop]
    by_cases hc : sco_cost P p m s ext t < c
    · rw [if_pos hc]
      exact ih _ _ (by omega)
    · rw [if_neg hc]
      simp

theorem sco_start_lt_W64 (p : ℕ) (m : ℤ) : sco_start p m < W64 := by
  unfold sco_start
  split
  · unfold usizeOfInt
    have h0 : (0 : ℤ) < (W64 : ℕ) := by simp [W64]
    have h1 : (0 : ℤ) ≤ ((reduction_num_step p : ℤ) - m) % (W64 : ℕ) :=
      Int.emod_nonneg _ (by simp [W64])
    have h2 : ((reduction_num_step p : ℤ) - m) % (W64 : ℕ) < (W64 : ℕ) :=
      Int.emod_lt_of_pos _ h0
    rw [Int.toNat_lt h1]
    exact h2
  · simp [W64]

theorem sco_probe_t_zero (p : ℕ) (m : ℤ) : sco_probe_t p m 0 = sco_start p m := by
  unfold sco_probe_t
  simp [Nat.mod_eq_of_lt (sco_start_lt_W64 p m)]

theorem sco_probe_t_add (p : ℕ) (m : ℤ) (j : ℕ) :
    add64 (sco_probe_t p m j) (reduction_num_step p) = sco_probe_t p m (j + 1) := by
  unfold add64 sco_probe_t
  rw [Nat.mod_add_mod]
  congr 1
  ring

theorem sco_probe_t_sub (p : ℕ) (m : ℤ) (j : ℕ) (hstep : reduction_num_step p < W64) :
    sub64 (sco_probe_t p m (j + 1)) (reduction_num_step p) = sco_probe_t p m j := by
  unfold sub64 sco_probe_t
  rw [Nat.mod_eq_of_lt hstep, Nat.mod_add_mod]
  have h1 : sco_start p m + (j + 1) * reduction_num_step p + (W64 - reduction_num_step p) =
      sco_start p m + j * reduction_num_step p + W64 := by
    have h2 : (j + 1) * reduction_num_step p = j * reduction_num_step p + reduction_num_step p := by
      ring
    omega
  rw [h1, Nat.add_mod_right]

theorem strict_chain_bound (f : ℕ → ℕ) :
    ∀ (J : ℕ), (∀ i, i < J → f (i + 1) < f i) → f J + J ≤ f 0 := by
  intro J
  induction J with
  | zero => intro _; omega
  | succ n ih =>
    intro h
    have h1 := h n (by omega)
    have h2 := ih (fun i hi => h i (by omega))
    omega

set_option maxRecDepth 4000 in
theorem scoLoop_reaches (P : SCOParams) (p : ℕ) (m : ℤ) (s : ℕ) (ext : Bool)
    (hstep : reduction_num_step p < W64) :
    ∀ (J j c fuel : ℕ), J + 2 ≤ fuel →
      sco_cost P p m s ext (sco_probe_t p m j) < c →
      (∀ i, i < J →
        sco_cost P p m s ext (sco_probe_t p m (j + i + 1)) <
          sco_cost P p m s ext (sco_probe_t p m (j + i))) →
      ¬ sco_cost P p m s ext (sco_probe_t p m (j + J + 1)) <
          sco_cost P p m s ext (sco_probe_t p m (j + J)) →
      scoLoop P p m s ext fuel (sco_probe_t p m j) c =
        some (sco_probe_t p m (j + J), sco_niter P p m s (sco_probe_t p m (j + J + 1)),
          sco_m_eff P m (sco_probe_t p m (j + J + 1))) := by
  intro J
  induction J with
  | zero =>
    intro j c fuel hfuel hacc _ hrej
    cases fuel with
    | zero => omega
    | succ f =>
      rw [scoLoop, if_pos hacc, sco_probe_t_add]
      cases f with
      | zero => omega
      | succ f2 =>
        rw [scoLoop]
        have hj : j + 0 = j := by omega
        rw [hj] at hrej
        rw [if_neg hrej, sco_probe_t_sub p m j hstep]
        simp [hj]
  | succ n ih =>
    intro j c fuel hfuel hacc hchain hrej
    cases fuel with
    | zero => omega
    | succ f =>
      rw [scoLoop, if_pos hacc, sco_probe_t_add]
      have h0 := hchain 0 (by omega)
      have hj0 : j + 0 + 1 = j + 1 := by omega
      have hj1 : j + 0 = j := by omega
      rw [hj0, hj1] at h0
      have hchain2 : ∀ i, i < n →
          sco_cost P p m s ext (sco_probe_t p m (j + 1 + i + 1)) <
            sco_cost P p m s ext (sco_probe_t p m (j + 1 + i)) := by
        intro i hi
        have := hchain (i + 1) (by omega)
        have e1 : j + (i + 1) + 1 = j + 1 + i + 1 := by omega
        have e2 : j + (i + 1) = j + 1 + i := by omega
        rw [e1, e2] at this
        exact this
      have hrej2 : ¬ sco_cost P p m s ext (sco_probe_t p m (j + 1 + n + 1)) <
          sco_cost P p m s ext (sco_probe_t p m (j + 1 + n)) := by
        have e1 : j + 1 + n + 1 = j + (n + 1) + 1 := by omega
        have e2 : j + 1 + n = j + (n + 1) := by omega
        rw [e1, e2]
        exact hrej
      have hres := ih (j + 1) (sco_cost P p m s ext (sco_probe_t p m j)) f (by omega) h0 hchain2
        hrej2
      rw [hres]
      have e1 : j + 1 + n = j + (n + 1) := by omega
      rw [e1]

/-! ### Helper lemmas about precision rounding and the retry loop -/

theorem le_round_p (x : ℕ) : x ≤ round_p x := by
  unfold round_p WORD_BIT_SIZE
  have h1 := Nat.mod_add_div (x + 64 - 1) 64
  have h2 : (x + 64 - 1) % 64 < 64 := Nat.mod_lt _ (by norm_num)
  omega

theorem round_p_lt_add_word (x : ℕ) : round_p x < x + WORD_BIT_SIZE := by
  unfold round_p WORD_BIT_SIZE
  have h1 := Nat.mod_add_div (x + 64 - 1) 64
  have h2 : (x + 64 - 1) % 64 < 64 := Nat.mod_lt _ (by norm_num)
  omega

theorem word_le_round_p (x : ℕ) (hx : 1 ≤ x) : WORD_BIT_SIZE ≤ round_p x := by
  unfold round_p WORD_BIT_SIZE
  have h1 := Nat.mod_add_div (x + 64 - 1) 64
  have h2 : (x + 64 - 1) % 64 < 64 := Nat.mod_lt _ (by norm_num)
  omega

theorem round_p_div_le (x : ℕ) : x / WORD_BIT_SIZE * WORD_BIT_SIZE ≤ x :=
  Nat.div_mul_le_self x WORD_BIT_SIZE

theorem tanRetryStep_eq (s : ℕ × ℕ) :
    tanRetryStep s = (s.1 + s.2, round_p ((s.1 + s.2) / 5)) := rfl

theorem tanRetryState_succ (p0 k : ℕ) :
    tanRetryState p0 (k + 1) = tanRetryStep (tanRetryState p0 k) := by
  unfold tanRetryState
  rw [Function.iterate_succ_apply']

theorem tanRetry_invariant (p0 : ℕ) :
    ∀ k, WORD_BIT_SIZE ≤ (tanRetryState p0 k).1 ∧ WORD_BIT_SIZE ≤ (tanRetryState p0 k).2 := by
  intro k
  induction k with
  | zero =>
    unfold tanRetryState WORD_BIT_SIZE
    simp [Function.iterate_zero]
  | succ n ih =>
    rw [tanRetryState_succ, tanRetryStep_eq]
    rcases ih with ⟨h1, h2⟩
    constructor
    · simp only []
      omega
    · simp only []
      apply word_le_round_p
      have h5 : (5 : ℕ) ≤ (tanRetryState p0 n).1 + (tanRetryState p0 n).2 := by
        unfold WORD_BIT_SIZE at h1 h2
        omega
      have h6 : 5 / 5 ≤ ((tanRetryState p0 n).1 + (tanRetryState p0 n).2) / 5 :=
        Nat.div_le_div_right h5
      simpa using h6

/-! ### Helper lemmas about the rectangular evaluator -/

theorem sqrt_int_le_sqrt_succ (n : ℕ) : sqrt_int n ≤ Nat.sqrt n + 1 := by
  unfold sqrt_int
  split
  · omega
  · omega

theorem two_mul_cache_le (niter : ℕ) (h : 108 ≤ niter) :
    2 * rect_cache_sz niter ≤ niter := by
  unfold rect_cache_sz MAX_CACHE
  by_cases h32 : niter < 2 ^ 32
  · rw [Nat.mod_eq_of_lt h32]
    have hs10 : 10 ≤ Nat.sqrt niter := Nat.le_sqrt.mpr (by omega)
    have hss : Nat.sqrt niter * Nat.sqrt niter ≤ niter := Nat.sqrt_le niter
    rcases le_or_lt (sqrt_int niter) 128 with hle | hlt
    · have hmin : min 128 (sqrt_int niter) ≤ sqrt_int niter := min_le_right _ _
      have h1 := sqrt_int_le_sqrt_succ niter
      nlinarith [hmin, h1, hs10, hss]
    · have hmin : min 128 (sqrt_int niter) = 128 := min_eq_left (by omega)
      rw [hmin]
      have h1 := sqrt_int_le_sqrt_succ niter
      have hs : 127 ≤ Nat.sqrt niter := by omega
      nlinarith [hs, hss]
  · have hmin : min 128 (sqrt_int (niter % 2 ^ 32)) ≤ 128 := min_le_left _ _
    have : (2 : ℕ) ^ 32 = 4294967296 := by norm_num
    omega

theorem rectLoopAux_no_wrap (c : ℕ) :
    ∀ (fuel n : ℕ), c ≤ n → rectLoopAux c fuel n ≠ RectRun.wrapped := by
  intro fuel
  induction fuel with
  | zero =>
    intro n _
    simp [rectLoopAux]
  | succ f ih =>
    intro n hcn
    rw [rectLoopAux]
    rw [if_neg (by omega)]
    split
    · simp
    · exact ih (n - c) (by omega)

/-! ### Helper lemmas about the cosine generator and the trigonometric identities -/

theorem cosGenState_succ (n : ℕ) :
    cosGenState (n + 1) = (cosGenNext (cosGenState n)).2 := by
  unfold cosGenState
  rw [Function.iterate_succ_apply']

theorem cast_factorial_ne_zero (n : ℕ) : ((n.factorial : ℕ) : ℚ) ≠ 0 :=
  Nat.cast_ne_zero.mpr (Nat.factorial_ne_zero n)

theorem factorial_two_succ (n : ℕ) :
    (((2 * (n + 1)).factorial : ℕ) : ℚ) =
      ((2 * n + 1 + 1 : ℕ) : ℚ) * ((2 * n + 1 : ℕ) : ℚ) * (((2 * n).factorial : ℕ) : ℚ) := by
  have h : 2 * (n + 1) = 2 * n + 1 + 1 := by ring
  rw [h, Nat.factorial_succ, Nat.factorial_succ]
  push_cast
  ring

theorem cosGenState_eq : ∀ k : ℕ,
    cosGenState k =
      ⟨2 * k, (-1 : ℚ) ^ k / (((2 * k).factorial : ℕ) : ℚ), (-1 : ℤ) ^ k⟩ := by
  intro k
  induction k with
  | zero =>
    unfold cosGenState cosGenNew
    simp [Nat.factorial]
  | succ n ih =>
    rw [cosGenState_succ, ih]
    unfold cosGenNext
    simp only [CosPolycoeffGen.mk.injEq]
    refine ⟨by ring, ?_, by ring⟩
    rcases Nat.even_or_odd n with he | ho
    · have hq : (-1 : ℚ) ^ n = 1 := he.neg_one_pow
      have hz : (-1 : ℤ) ^ n = 1 := he.neg_one_pow
      have hq1 : (-1 : ℚ) ^ (n + 1) = -1 := (he.add_one).neg_one_pow
      rw [hq, hz, hq1, if_neg (by norm_num)]
      rw [abs_of_nonneg (by positivity)]
      rw [factorial_two_succ]
      have hf := cast_factorial_ne_zero (2 * n)
      have ha : ((2 * n + 1 : ℕ) : ℚ) ≠ 0 := by positivity
      have hb : ((2 * n + 1 + 1 : ℕ) : ℚ) ≠ 0 := by positivity
      field_simp
      ring
    · have hq : (-1 : ℚ) ^ n = -1 := ho.neg_one_pow
      have hz : (-1 : ℤ) ^ n = -1 := ho.neg_one_pow
      have hq1 : (-1 : ℚ) ^ (n + 1) = 1 := (ho.add_one).neg_one_pow
      rw [hq, hz, hq1, if_pos (by norm_num)]
      have hneg : (-1 : ℚ) / (((2 * n).factorial : ℕ) : ℚ) * (1 / ((2 * n + 1 : ℕ) : ℚ)) *
          (1 / ((2 * n + 1 + 1 : ℕ) : ℚ)) =
          -((1 : ℚ) / (((2 * n).factorial : ℕ) : ℚ) * (1 / ((2 * n + 1 : ℕ) : ℚ)) *
            (1 / ((2 * n + 1 + 1 : ℕ) : ℚ))) := by ring
      rw [hneg, abs_neg, abs_of_nonneg (by positivity)]
      rw [factorial_two_succ]
      have hf := cast_factorial_ne_zero (2 * n)
      have ha : ((2 * n + 1 : ℕ) : ℚ) ≠ 0 := by positivity
      have hb : ((2 * n + 1 + 1 : ℕ) : ℚ) ≠ 0 := by positivity
      field_simp
      ring

theorem cosRestoreStep_cos (y : ℝ) :
    cosRestoreStep (Real.cos y) = Real.cos (3 * y) := by
  unfold cosRestoreStep
  rw [Real.cos_three_mul]
  ring

theorem tanRestoreStep_tan (y : ℝ) :
    tanRestoreStep (Real.tan y) = Real.tan (2 * y) := by
  unfold tanRestoreStep
  rw [Real.tan_two_mul]
  ring

theorem cos_restore_of_reduce (n : ℕ) (x : ℝ) :
    cos_arg_restore n (Real.cos (x / 3 ^ n)) = Real.cos x := by
  induction n with
  | zero => simp [cos_arg_restore]
  | succ k ih =>
    unfold cos_arg_restore
    rw [Function.iterate_succ_apply]
    have h3 : (3 : ℝ) * (x / 3 ^ (k + 1)) = x / 3 ^ k := by
      field_simp
      ring
    rw [cosRestoreStep_cos, h3]
    exact ih

theorem tan_restore_of_reduce (n : ℕ) (x : ℝ) :
    tan_arg_restore n (Real.tan (x / 2 ^ n)) = Real.tan x := by
  induction n with
  | zero => simp [tan_arg_restore]
  | succ k ih =>
    unfold tan_arg_restore
    rw [Function.iterate_succ_apply]
    have h2 : (2 : ℝ) * (x / 2 ^ (k + 1)) = x / 2 ^ k := by
      field_simp
      ring
    rw [tanRestoreStep_tan, h2]
    exact ih

theorem cos_arg_reduce_one_half : cos_arg_reduce 1 ((1 : ℚ) / 2) = 1 / 6 := by
  unfold cos_arg_reduce
  rw [Function.iterate_one]
  norm_num

/-! ### Claim theorems -/

/-- C1 (amended): for every precision, generator data, negative exponent `m` and
power step, `series_cost_optimize` starts `reduction_times` at the clamped value
`max(step - m, 0)` (the probe at index 0), advances by the fixed step
`log2_floor p / 2` while the recomputed total cost strictly decreases, and when
the probe at index `J + 1` is the first whose cost fails to strictly decrease it
returns the rolled-back best `reduction_times` (probe `J`) — but the returned
iteration estimate and effective exponent are those computed at the REJECTED
probe `J + 1`, not at the best one, contrary to the original claim. -/
theorem c1_series_cost_optimize_amended (P : SCOParams) (p : ℕ) (m : ℤ) (s : ℕ)
    (ext : Bool) (J : ℕ)
    (hstep : reduction_num_step p < W64)
    (h0 : sco_cost P p m s ext (sco_probe_t p m 0) < u64MAX)
    (hacc : ∀ i, i < J → sco_cost P p m s ext (sco_probe_t p m (i + 1)) <
      sco_cost P p m s ext (sco_probe_t p m i))
    (hrej : ¬ sco_cost P p m s ext (sco_probe_t p m (J + 1)) <
      sco_cost P p m s ext (sco_probe_t p m J)) :
    series_cost_optimize P p m s ext =
      some (sco_probe_t p m J, sco_niter P p m s (sco_probe_t p m (J + 1)),
        sco_m_eff P m (sco_probe_t p m (J + 1))) := by
  have hbound := strict_chain_bound (fun i => sco_cost P p m s ext (sco_probe_t p m i)) J hacc
  simp only at hbound
  have hmax : u64MAX = 18446744073709551615 := by norm_num [u64MAX]
  have hfuel : J + 2 ≤ 2 ^ 64 + 1 := by
    have hp2 : (2 : ℕ) ^ 64 + 1 = 18446744073709551617 := by norm_num
    omega
  have h := scoLoop_reaches P p m s ext hstep J 0 u64MAX (2 ^ 64 + 1) hfuel
    (by simpa using h0) (by intro i hi; simpa using hacc i hi) (by simpa using hrej)
  unfold series_cost_optimize
  rw [← sco_probe_t_zero p m]
  simp only [Nat.zero_add] at h
  exact h

set_option maxRecDepth 40000 in
/-- C1 counterexample: at precision 1024 with the tangent generator and
estimator, `m = 0`, power step 1, the optimizer returns reduction count 50
together with iteration estimate 17 and effective exponent 55 — the values of
the rejected probe at count 55.  Had all three components been computed at the
best count 50, they would have been 18 and 50. -/
theorem c1_series_cost_optimize_counterexample :
    series_cost_optimize (tanSCOParams 1024) 1024 0 1 true = some (50, 17, 55) ∧
    sco_m_eff (tanSCOParams 1024) 0 50 = 50 ∧ (55 : ℕ) ≠ 50 ∧
    sco_niter (tanSCOParams 1024) 1024 0 1 50 = 18 ∧ (17 : ℕ) ≠ 18 := by
  refine ⟨?_, by decide, by decide, by decide, by decide⟩
  unfold series_cost_optimize
  have h12 : scoLoop (tanSCOParams 1024) 1024 0 1 true 12 (sco_start 1024 0) u64MAX =
      some (50, 17, 55) := by decide
  exact scoLoop_mono _ _ _ _ _ 12 h12 (by norm_num)

set_option maxRecDepth 40000 in
/-- C1 witness: the amended theorem instantiated at the concrete tangent
configuration `p = 1024`, `m = 0`, power step 1, `J = 9`, with every hypothesis
discharged by computation. -/
theorem c1_series_cost_optimize_witness :
    (reduction_num_step 1024 < W64 ∧
      sco_cost (tanSCOParams 1024) 1024 0 1 true (sco_probe_t 1024 0 0) < u64MAX ∧
      (∀ i, i < 9 → sco_cost (tanSCOParams 1024) 1024 0 1 true (sco_probe_t 1024 0 (i + 1)) <
        sco_cost (tanSCOParams 1024) 1024 0 1 true (sco_probe_t 1024 0 i)) ∧
      ¬ sco_cost (tanSCOParams 1024) 1024 0 1 true (sco_probe_t 1024 0 10) <
        sco_cost (tanSCOParams 1024) 1024 0 1 true (sco_probe_t 1024 0 9)) ∧
    series_cost_optimize (tanSCOParams 1024) 1024 0 1 true =
      some (sco_probe_t 1024 0 9,
        sco_niter (tanSCOParams 1024) 1024 0 1 (sco_probe_t 1024 0 10),
        sco_m_eff (tanSCOParams 1024) 0 (sco_probe_t 1024 0 10)) :=
  ⟨⟨by decide, by decide, by decide, by decide⟩,
    c1_series_cost_optimize_amended (tanSCOParams 1024) 1024 0 1 true 9 (by decide) (by decide)
      (by decide) (by decide)⟩

/-- C2 (amended): the `reduction_times` returned by the optimizer is the last
probe of the strided search whose cost strictly improved; increasing it by one
further step does not strictly lower the modeled total cost.  It is NOT in
general the smallest non-negative value with that property, nor need any
further increase fail to lower the cost (see the counterexample). -/
theorem c2_optimizer_minimality_amended (P : SCOParams) (p : ℕ) (m : ℤ) (s : ℕ)
    (ext : Bool) (J : ℕ)
    (hstep : reduction_num_step p < W64)
    (h0 : sco_cost P p m s ext (sco_probe_t p m 0) < u64MAX)
    (hacc : ∀ i, i < J → sco_cost P p m s ext (sco_probe_t p m (i + 1)) <
      sco_cost P p m s ext (sco_probe_t p m i))
    (hrej : ¬ sco_cost P p m s ext (sco_probe_t p m (J + 1)) <
      sco_cost P p m s ext (sco_probe_t p m J)) :
    ∃ ni me, series_cost_optimize P p m s ext = some (sco_probe_t p m J, ni, me) ∧
      ¬ sco_cost P p m s ext (add64 (sco_probe_t p m J) (reduction_num_step p)) <
        sco_cost P p m s ext (sco_probe_t p m J) := by
  have hbound := strict_chain_bound (fun i => sco_cost P p m s ext (sco_probe_t p m i)) J hacc
  simp only at hbound
  have hmax : u64MAX = 18446744073709551615 := by norm_num [u64MAX]
  have hfuel : J + 2 ≤ 2 ^ 64 + 1 := by
    have hp2 : (2 : ℕ) ^ 64 + 1 = 18446744073709551617 := by norm_num
    omega
  have h := scoLoop_reaches P p m s ext hstep J 0 u64MAX (2 ^ 64 + 1) hfuel
    (by simpa using h0) (by intro i hi; simpa using hacc i hi) (by simpa using hrej)
  simp only [Nat.zero_add] at h
  refine ⟨sco_niter P p m s (sco_probe_t p m (J + 1)), sco_m_eff P m (sco_probe_t p m (J + 1)),
    ?_, ?_⟩
  · unfold series_cost_optimize
    rw [← sco_probe_t_zero p m]
    exact h
  · rw [sco_probe_t_add]
    exact hrej

set_option maxRecDepth 40000 in
/-- C2 counterexample: at precision 1024 with the tangent generator and
estimator the optimizer returns `reduction_times = 50`, yet the modeled total
cost at reduction count 52 is strictly lower than at 50, so the returned value
is not the smallest non-negative value at which increasing the reduction count
further would not strictly lower the cost — indeed increasing it from 50 DOES
strictly lower the cost. -/
theorem c2_optimizer_minimality_counterexample :
    series_cost_optimize (tanSCOParams 1024) 1024 0 1 true = some (50, 17, 55) ∧
    sco_cost (tanSCOParams 1024) 1024 0 1 true 52 <
      sco_cost (tanSCOParams 1024) 1024 0 1 true 50 := by
  refine ⟨?_, by decide⟩
  unfold series_cost_optimize
  have h12 : scoLoop (tanSCOParams 1024) 1024 0 1 true 12 (sco_start 1024 0) u64MAX =
      some (50, 17, 55) := by decide
  exact scoLoop_mono _ _ _ _ _ 12 h12 (by norm_num)

set_option maxRecDepth 40000 in
/-- C2 witness: the amended theorem instantiated at the concrete tangent
configuration `p = 1024`, `m = 0`, power step 1, `J = 9`. -/
theorem c2_optimizer_minimality_witness :
    (reduction_num_step 1024 < W64 ∧
      sco_cost (tanSCOParams 1024) 1024 0 1 true (sco_probe_t 1024 0 0) < u64MAX ∧
      (∀ i, i < 9 → sco_cost (tanSCOParams 1024) 1024 0 1 true (sco_probe_t 1024 0 (i + 1)) <
        sco_cost (tanSCOParams 1024) 1024 0 1 true (sco_probe_t 1024 0 i)) ∧
      ¬ sco_cost (tanSCOParams 1024) 1024 0 1 true (sco_probe_t 1024 0 10) <
        sco_cost (tanSCOParams 1024) 1024 0 1 true (sco_probe_t 1024 0 9)) ∧
    (∃ ni me, series_cost_optimize (tanSCOParams 1024) 1024 0 1 true =
        some (sco_probe_t 1024 0 9, ni, me) ∧
      ¬ sco_cost (tanSCOParams 1024) 1024 0 1 true
          (add64 (sco_probe_t 1024 0 9) (reduction_num_step 1024)) <
        sco_cost (tanSCOParams 1024) 1024 0 1 true (sco_probe_t 1024 0 9)) :=
  ⟨⟨by decide, by decide, by decide, by decide⟩,
    c2_optimizer_minimality_amended (tanSCOParams 1024) 1024 0 1 true 9 (by decide) (by decide)
      (by decide) (by decide)⟩

/-- C10: `series_cost_optimize` terminates for every precision `p >= 2` (indeed
for every input), every starting exponent and every power step, when
instantiated with the concrete tangent and cosine estimators: the loop accepts
a probe only when its cost strictly decreases the running best `u64` cost, and
a strictly decreasing sequence of machine integers is finite, so the fuelled
loop returns a value before exhausting fuel `2^64 + 1`. -/
theorem c10_series_cost_optimize_terminates (p : ℕ) (m : ℤ) (s : ℕ) (ext : Bool) (_hp : 2 ≤ p) :
    (series_cost_optimize (tanSCOParams p) p m s ext).isSome ∧
    (series_cost_optimize (cosSCOParams p) p m s ext).isSome := by
  constructor <;>
  · unfold series_cost_optimize
    apply scoLoop_isSome
    norm_num [u64MAX]

/-- C10 witness: termination at the concrete instance `p = 1024`, `m = 0`,
power step 1. -/
theorem c10_series_cost_optimize_witness :
    2 ≤ 1024 ∧
    ((series_cost_optimize (tanSCOParams 1024) 1024 0 1 true).isSome ∧
      (series_cost_optimize (cosSCOParams 1024) 1024 0 1 true).isSome) :=
  ⟨by norm_num, c10_series_cost_optimize_terminates 1024 0 1 true (by norm_num)⟩

/-- C3 (amended): `series_run` dispatches in this exact order: if the first
power or the step factor is exactly zero it computes at most one term directly
(zero terms when the first power is zero); else if the iteration estimate is at
least `RECT_ITER_THRESHOLD = 128 / 10 * 9 = 108` (NOT 90% of 128, which would
be 115.2, because the integer division is performed first) it uses rectangular
evaluation; else if the generator is divisor-based it uses linear evaluation;
else it uses Horner evaluation. -/
theorem c3_series_run_dispatch_amended (xfz xsz : Bool) (niter : ℕ) (isdiv : Bool) (acc xf c : ℚ) :
    (series_run_dispatch xfz xsz niter isdiv = SeriesStrategy.fast ↔ (xfz || xsz) = true) ∧
    (series_run_dispatch xfz xsz niter isdiv = SeriesStrategy.rect ↔
      ((xfz || xsz) = false ∧ 108 ≤ niter)) ∧
    (series_run_dispatch xfz xsz niter isdiv = SeriesStrategy.linear ↔
      ((xfz || xsz) = false ∧ niter < 108 ∧ isdiv = true)) ∧
    (series_run_dispatch xfz xsz niter isdiv = SeriesStrategy.horner ↔
      ((xfz || xsz) = false ∧ niter < 108 ∧ isdiv = false)) ∧
    (series_compute_fast acc xf isdiv c).2 ≤ 1 ∧
    series_compute_fast acc 0 isdiv c = (acc, 0) := by
  have ht : RECT_ITER_THRESHOLD = 108 := rfl
  unfold series_run_dispatch
  rw [ht]
  refine ⟨?_, ?_, ?_, ?_, ?_, ?_⟩
  · rcases Nat.lt_or_ge niter 108 with h | h
    · cases xfz <;> cases xsz <;> cases isdiv <;> simp [Nat.not_le.mpr h]
    · cases xfz <;> cases xsz <;> cases isdiv <;> simp [h]
  · rcases Nat.lt_or_ge niter 108 with h | h
    · cases xfz <;> cases xsz <;> cases isdiv <;> simp [Nat.not_le.mpr h]
    · cases xfz <;> cases xsz <;> cases isdiv <;> simp [h]
  · rcases Nat.lt_or_ge niter 108 with h | h
    · cases xfz <;> cases xsz <;> cases isdiv <;> simp [Nat.not_le.mpr h, h]
    · cases xfz <;> cases xsz <;> cases isdiv <;> simp [h, Nat.not_lt.mpr h]
  · rcases Nat.lt_or_ge niter 108 with h | h
    · cases xfz <;> cases xsz <;> cases isdiv <;> simp [Nat.not_le.mpr h, h]
    · cases xfz <;> cases xsz <;> cases isdiv <;> simp [h, Nat.not_lt.mpr h]
  · unfold series_compute_fast
    split <;> simp
  · unfold series_compute_fast
    simp

/-- C3 counterexample: at iteration estimate 108 with nonzero first power and
step factor and a non-divisor generator, the code dispatches to rectangular
evaluation even though 108 is below 90% of the 128-entry cache threshold
(115.2), where the claim would dispatch to Horner evaluation. -/
theorem c3_series_run_dispatch_counterexample :
    series_run_dispatch false false 108 false = SeriesStrategy.rect ∧
    (108 : ℚ) < 90 / 100 * 128 ∧
    SeriesStrategy.rect ≠ SeriesStrategy.horner :=
  ⟨by decide, by norm_num, by decide⟩

/-- C4 exhibit of the code bug: with `EXPONENT_MIN = -10`, input value
`1/2 * 2^(-9)` and reduction count `n = 2`, the guarded fallback of
`tan_arg_reduce` returns the input divided by `2^3`, not by `2^2 = 2^n`: the
code reads the exponent back AFTER setting it to `EXPONENT_MIN`, so the shift
already applied by `set_exponent` is applied again by the explicit division
loop, over-dividing by `2^(e - EXPONENT_MIN)`. -/
theorem c4_tan_arg_reduce_bug_exhibit :
    tan_arg_reduce_val (1 / 2) (-9) 2 (-10) = bfVal (1 / 2) (-9) / 2 ^ 3 ∧
    tan_arg_reduce_val (1 / 2) (-9) 2 (-10) ≠ bfVal (1 / 2) (-9) / 2 ^ 2 := by
  constructor
  · unfold tan_arg_reduce_val bfVal
    norm_num
  · unfold tan_arg_reduce_val bfVal
    norm_num

/-- C5 (amended): the reduction round-trip holds through the function values,
not on raw arguments: restoring `n` times after evaluating the function on the
argument reduced `n` times recovers the function of the original argument —
`cos_arg_restore n (cos (cos_arg_reduce n x)) = cos x` via the triple-angle
identity, and `tan_arg_restore n (tan (x / 2^n)) = tan x` via the double-angle
identity, exactly over `ℝ`. -/
theorem c5_round_trip_amended (n : ℕ) (x : ℝ) :
    cos_arg_restore n (Real.cos (cos_arg_reduce n x)) = Real.cos x ∧
    tan_arg_restore n (Real.tan (x / 2 ^ n)) = Real.tan x := by
  constructor
  · have hred : cos_arg_reduce n x = x / 3 ^ n := by
      induction n with
      | zero => simp [cos_arg_reduce]
      | succ k ih =>
        unfold cos_arg_reduce at ih ⊢
        rw [Function.iterate_succ_apply', ih, div_div, pow_succ]
    rw [hred]
    exact cos_restore_of_reduce n x
  · exact tan_restore_of_reduce n x

/-- C5 counterexample: composing restore directly with reduce on the argument,
as the claim literally states, fails by a fixed margin that no working
precision explains: in exact arithmetic
`cos_arg_restore 1 (cos_arg_reduce 1 (1/2)) = -13/27 ≠ 1/2` and
`tan_arg_restore 1 (tan_arg_reduce 1 (1/2)) = 8/15 ≠ 1/2`. -/
theorem c5_round_trip_counterexample :
    cos_arg_restore 1 (cos_arg_reduce 1 ((1 : ℚ) / 2)) = -13 / 27 ∧
    ((-13 : ℚ) / 27) ≠ 1 / 2 ∧
    bfVal (1 / 2) 0 = (1 : ℚ) / 2 ∧
    tan_arg_restore 1 (tan_arg_reduce_val (1 / 2) 0 1 (-5)) = 8 / 15 ∧
    ((8 : ℚ) / 15) ≠ 1 / 2 := by
  refine ⟨?_, by norm_num, by unfold bfVal; norm_num, ?_, by norm_num⟩
  · rw [cos_arg_reduce_one_half]
    unfold cos_arg_restore cosRestoreStep
    rw [Function.iterate_one]
    norm_num
  · have h : tan_arg_reduce_val (1 / 2) 0 1 (-5) = (1 : ℚ) / 4 := by
      unfold tan_arg_reduce_val
      norm_num
    rw [h]
    unfold tan_arg_restore tanRestoreStep
    rw [Function.iterate_one]
    norm_num

/-- C6: the cosine coefficient generator's `k`-th pull (k = 1, 2, ...) returns
exactly `(-1)^k / (2k)!` in the exact-arithmetic model, the sign alternator
holds `(-1)^k` after `k` pulls, and the generator is not divisor-based (the
trait default `is_div = false` is not overridden). -/
theorem c6_cos_generator_coefficient (k : ℕ) :
    cosPullCoeff (k + 1) = (-1 : ℚ) ^ (k + 1) / (((2 * (k + 1)).factorial : ℕ) : ℚ) ∧
    (cosGenNext (cosGenState k)).1 =
      (-1 : ℚ) ^ (k + 1) / (((2 * (k + 1)).factorial : ℕ) : ℚ) ∧
    (cosGenState k).sign = (-1 : ℤ) ^ k ∧
    cosGenIsDiv = false := by
  have h1 := cosGenState_eq (k + 1)
  have h0 := cosGenState_eq k
  refine ⟨?_, ?_, ?_, rfl⟩
  · unfold cosPullCoeff
    rw [h1]
  · have hp : (cosGenNext (cosGenState k)).1 = (cosGenState (k + 1)).fct := by
      rw [cosGenState_succ]
      unfold cosGenNext
      simp
    rw [hp, h1]
  · rw [h0]

/-- C7: within one `tan` call the working precision is strictly increasing
across retries of the verify-rounding loop: each verification failure adds the
current increment (positive, initially one machine word of 64 bits), and the
subsequent increment is `round_p(p_wrk / 5)`, which lies within one word above
one fifth (roughly 20%) of the new working precision; no retry lowers it. -/
theorem c7_tan_working_precision_monotone (p0 k : ℕ) :
    (tanRetryState p0 (k + 1)).1 = (tanRetryState p0 k).1 + (tanRetryState p0 k).2 ∧
    (tanRetryState p0 k).1 < (tanRetryState p0 (k + 1)).1 ∧
    (tanRetryState p0 0).2 = WORD_BIT_SIZE ∧
    (tanRetryState p0 (k + 1)).2 = round_p ((tanRetryState p0 (k + 1)).1 / 5) ∧
    (tanRetryState p0 (k + 1)).1 / 5 ≤ (tanRetryState p0 (k + 1)).2 ∧
    (tanRetryState p0 (k + 1)).2 < (tanRetryState p0 (k + 1)).1 / 5 + WORD_BIT_SIZE := by
  have hinv := tanRetry_invariant p0 k
  have heq : tanRetryState p0 (k + 1) =
      ((tanRetryState p0 k).1 + (tanRetryState p0 k).2,
        round_p (((tanRetryState p0 k).1 + (tanRetryState p0 k).2) / 5)) := by
    rw [tanRetryState_succ, tanRetryStep_eq]
  refine ⟨by rw [heq], ?_, ?_, by rw [heq], ?_, ?_⟩
  · rw [heq]
    have h2 := hinv.2
    unfold WORD_BIT_SIZE at h2
    simp only []
    omega
  · unfold tanRetryState
    simp [Function.iterate_zero]
  · rw [heq]
    exact le_round_p _
  · rw [heq]
    exact round_p_lt_add_word _

/-- C8: for every requested precision and rounding mode, `tan` applied to an
exact zero short-circuits before entering the reduce/evaluate/restore loop and
returns a zero that carries the input's sign and inexact flag at the requested
precision rounded up to the word size (`round_p p`, per the documented
precision contract of `tan`). -/
theorem c8_tan_zero_short_circuit (p : ℕ) (x : TanInput) (hx : x.is_zero = true) :
    tan_entry x p = TanEntryOut.earlyZero (round_p p) x.sign x.inexact ∧
    tan_entry x p ≠ TanEntryOut.enterLoop ∧
    tanEntryValue (tan_entry x p) = some 0 := by
  unfold tan_entry
  simp [hx, tanEntryValue]

/-- C8 witness: the short-circuit theorem applied to a concrete negative zero
input at precision 7. -/
theorem c8_tan_zero_short_circuit_witness :
    (TanInput.mk true (-1) false).is_zero = true ∧
    (tan_entry ⟨true, -1, false⟩ 7 = TanEntryOut.earlyZero (round_p 7) (-1) false ∧
      tan_entry ⟨true, -1, false⟩ 7 ≠ TanEntryOut.enterLoop ∧
      tanEntryValue (tan_entry ⟨true, -1, false⟩ 7) = some 0) :=
  ⟨rfl, c8_tan_zero_short_circuit 7 ⟨true, -1, false⟩ rfl⟩

/-- C9 (amended): whenever `series_rectangular` is invoked by `series_run` —
i.e. with iteration estimate at least `RECT_ITER_THRESHOLD = 108`, not 115 as
the claim stated — the entry assertion `niter >= 4` holds and the two unsigned
subtractions `niter -= cache_sz` never wrap: the pre-loop site requires
`cache_sz ≤ niter` and the first in-loop site requires
`cache_sz ≤ niter - cache_sz`; every later in-loop subtraction is protected by
the loop's `niter < cache_sz` exit check, so the whole modelled subtraction
sequence never reports a wrap. -/
theorem c9_rect_subtractions_safe_amended (niter : ℕ) (h : RECT_ITER_THRESHOLD ≤ niter) :
    4 ≤ niter ∧
    rect_cache_sz niter ≤ niter ∧
    rect_cache_sz niter ≤ niter - rect_cache_sz niter ∧
    ∀ fuel, rect_subtractions niter fuel ≠ RectRun.wrapped := by
  have ht : RECT_ITER_THRESHOLD = 108 := rfl
  rw [ht] at h
  have h2 := two_mul_cache_le niter h
  refine ⟨by omega, by omega, by omega, ?_⟩
  intro fuel
  unfold rect_subtractions
  rw [if_neg (by omega)]
  exact rectLoopAux_no_wrap _ fuel _ (by omega)

/-- C9 witness: the safety theorem applied at the dispatch boundary
`niter = 108`. -/
theorem c9_rect_subtractions_witness :
    RECT_ITER_THRESHOLD ≤ 108 ∧
    (4 ≤ 108 ∧ rect_cache_sz 108 ≤ 108 ∧ rect_cache_sz 108 ≤ 108 - rect_cache_sz 108 ∧
      ∀ fuel, rect_subtractions 108 fuel ≠ RectRun.wrapped) :=
  ⟨by decide, c9_rect_subtractions_safe_amended 108 (by decide)⟩

/-- C9 counterexample to the claim's threshold gloss: `series_run` dispatches
to rectangular evaluation already at iteration estimate 108, so invocation does
not imply `niter >= 115`. -/
theorem c9_rect_threshold_counterexample :
    series_run_dispatch false false 108 false = SeriesStrategy.rect ∧ ¬ (115 ≤ 108) :=
  ⟨by decide, by decide⟩
